import Mathlib

/-!
# Verification of the kv.js data-engine core

Shallow embedding of the data-engine layer of the kv.js repository
(`src/XMap.js` and `src/kv.js`) together with theorems settling the
frozen claims about its specification.

Modelling conventions:
* JavaScript `Map` objects are modelled as association lists preserving
  insertion order (`Map.set` updates an existing key in place and appends
  a new key at the end; `Map.delete` removes the unique entry).
* `XMap` (the sharded keyspace) is a non-empty list of such shards,
  kept as a `first` shard plus the `rest` — the constructor always
  creates exactly one backing map, so the pool is never empty.
* `Date.now()` is passed explicitly as an integer `now` parameter to
  every operation that reads the clock.
* JavaScript numbers appearing as deadlines, TTLs and scores are
  modelled as `Int` (all claims are about integral values).
* The IndexedDB persistence side-channel and the background cleanup
  timer are not modelled: they do not affect the in-memory state
  transitions the claims are about.
-/

namespace XMap

/-- One backing `Map` of the pool: an insertion-ordered association list. -/
abbrev Shard (κ ν : Type) := List (κ × ν)

variable {κ ν : Type} [DecidableEq κ]

/-- `Map.prototype.has` on one backing map. -/
def shardHas (s : Shard κ ν) (k : κ) : Bool :=
  s.any (fun p => decide (p.1 = k))

/-- `Map.prototype.get` on one backing map. -/
def shardGet (s : Shard κ ν) (k : κ) : Option ν :=
  (s.find? (fun p => decide (p.1 = k))).map Prod.snd

/-- `Map.prototype.set` on one backing map: update the existing entry in
place, otherwise append at the end (JS `Map` insertion order). -/
def shardSet (s : Shard κ ν) (k : κ) (v : ν) : Shard κ ν :=
  match s with
  | [] => [(k, v)]
  | p :: rest => if p.1 = k then (k, v) :: rest else p :: shardSet rest k v

end XMap

/-- The sharded keyspace of `src/XMap.js`.  The private `#pool` array is
always non-empty (constructor and `clear` reset it to a single `Map`),
so it is kept as a first shard plus the remaining shards.  `#pool[0]`
(the newest shard, shards are prepended by `unshift`) is `first`. -/
structure XMap (κ ν : Type) where
  first : XMap.Shard κ ν
  rest : List (XMap.Shard κ ν)
deriving DecidableEq

namespace XMap

variable {κ ν : Type} [DecidableEq κ]

/-- The shard list `#pool` in traversal order. -/
def pool (m : XMap κ ν) : List (Shard κ ν) := m.first :: m.rest

/-- `new XMap()`. -/
def emptyMap : XMap κ ν := ⟨[], []⟩

/-- A single backing container's capacity ceiling from `XMap.set`. -/
def SHARD_CAPACITY : Nat := 8388608

/-- Lookup helper: `XMap.get` checks shards in pool order until a match. -/
def getFromPool (pool : List (Shard κ ν)) (k : κ) : Option ν :=
  match pool with
  | [] => none
  | s :: ss => if shardHas s k then shardGet s k else getFromPool ss k

/-- `XMap.prototype.get`. -/
def get (m : XMap κ ν) (k : κ) : Option ν :=
  getFromPool m.pool k

/-- `XMap.prototype.has`: `this.#pool.some(map => map.has(key))`. -/
def has (m : XMap κ ν) (k : κ) : Bool :=
  m.pool.any (fun s => shardHas s k)

/-- `XMap.prototype.size`: sum of the shard sizes. -/
def size (m : XMap κ ν) : Nat :=
  (m.pool.map List.length).sum

/-- Update the first shard of the pool that contains `k` (the search
loop of `XMap.set` breaks at the first match). -/
def setInPool (pool : List (Shard κ ν)) (k : κ) (v : ν) : List (Shard κ ν) :=
  match pool with
  | [] => []
  | s :: ss => if shardHas s k then shardSet s k v :: ss else s :: setInPool ss k v

/-- `XMap.prototype.set`: mutate in place in the shard that holds the key;
otherwise insert into `#pool[0]`, allocating a fresh shard first when
`#pool[0]` is at capacity. -/
def set (m : XMap κ ν) (k : κ) (v : ν) : XMap κ ν :=
  if shardHas m.first k then ⟨shardSet m.first k v, m.rest⟩
  else if m.rest.any (fun s => shardHas s k) then ⟨m.first, setInPool m.rest k v⟩
  else if SHARD_CAPACITY ≤ m.first.length then ⟨[(k, v)], m.first :: m.rest⟩
  else ⟨shardSet m.first k v, m.rest⟩

/-- Delete from the first shard of the pool that contains `k`
(`pool.some(map => map.delete(key))` short-circuits at the first hit). -/
def deleteFromPool (pool : List (Shard κ ν)) (k : κ) : List (Shard κ ν) × Bool :=
  match pool with
  | [] => ([], false)
  | s :: ss =>
    if shardHas s k then ((s.eraseP (fun p => decide (p.1 = k))) :: ss, true)
    else
      let r := deleteFromPool ss k
      (s :: r.1, r.2)

/-- `XMap.prototype.delete`. -/
def delete (m : XMap κ ν) (k : κ) : XMap κ ν × Bool :=
  if shardHas m.first k then
    (⟨m.first.eraseP (fun p => decide (p.1 = k)), m.rest⟩, true)
  else
    let r := deleteFromPool m.rest k
    (⟨m.first, r.1⟩, r.2)

/-- `XMap.prototype.entries` / iteration: shard iterations concatenated
in shard order. -/
def entries (m : XMap κ ν) : List (κ × ν) :=
  m.pool.flatten

/-- Well-formedness of a pool as maintained by the JS runtime: each
backing `Map` has pairwise-distinct keys and a key lives in at most one
shard. -/
def WFpool (pool : List (Shard κ ν)) : Prop :=
  (∀ s ∈ pool, (s.map Prod.fst).Nodup) ∧
    pool.Pairwise (fun s t => ∀ p ∈ s, shardHas t p.1 = false)

/-- Well-formedness of an `XMap`. -/
def WF (m : XMap κ ν) : Prop := WFpool m.pool

instance (pool : List (Shard κ ν)) : Decidable (WFpool pool) := by
  unfold WFpool
  infer_instance

instance (m : XMap κ ν) : Decidable (WF m) := by
  unfold WF
  infer_instance

end XMap



/-! ## The pattern matcher of `src/kv.js` (`simpleMatch`)

The source lowercases both strings, rejects the empty pattern, compares
directly when the pattern has no glob metacharacter, and otherwise
builds an anchored case-insensitive regular expression in which `*`
becomes `.*`, `?` becomes `.` and every other character is literal.
The embedding below implements that anchored glob semantics directly
on character lists, using explicit fuel so that it computes by kernel
reduction (each step shrinks `pattern.length + str.length`, so the
initial fuel is always sufficient).  The `[...]` character-class and
`{a,b}` brace-alternation branches of the source are not modelled: no
claim exercises a pattern containing `[` or `{`. -/

/-- Anchored glob matching for patterns made of literals, `*` and `?`. -/
def globMatchAux : Nat → List Char → List Char → Bool
  | 0, _, _ => false
  | _ + 1, [], s => s.isEmpty
  | fuel + 1, c :: ps, s =>
    if c = '*' then
      globMatchAux fuel ps s ||
        (match s with
         | [] => false
         | _ :: s' => globMatchAux fuel (c :: ps) s')
    else
      match s with
      | [] => false
      | d :: s' => (c = '?' || c = d) && globMatchAux fuel ps s'

/-- `simpleMatch(str, pattern)` from `src/kv.js`. -/
def simpleMatch (str pattern : String) : Bool :=
  let lowerStr := str.data.map Char.toLower
  let lowerPattern := pattern.data.map Char.toLower
  if lowerPattern.isEmpty then false
  else if !(lowerPattern.any fun c => c = '*' || c = '?' || c = '[' || c = '{') then
    lowerStr == lowerPattern
  else
    globMatchAux (lowerPattern.length + lowerStr.length + 1) lowerPattern lowerStr

/-! ## The sorted-set value variant

Sorted sets are stored as `XMap`s from member to score; scores are
JavaScript numbers, modelled as `Int`.  Every range operation re-sorts
the entry list with `Array.prototype.sort`, which is stable, using the
comparator `(a, b) => a[1] - b[1]` (or `b[1] - a[1]` for the reverse
variants) — so entries are ordered by score only, and entries with
equal scores keep their relative insertion order. -/

/-- Stable insertion of one entry: the new entry goes after every
already-placed entry whose score is `le`-before it. -/
def insertByScore (le : Int → Int → Bool) (x : String × Int) :
    List (String × Int) → List (String × Int)
  | [] => [x]
  | y :: ys => if le y.2 x.2 then y :: insertByScore le x ys else x :: y :: ys

/-- Stable sort by score: `Array.prototype.sort` with a score-only
comparator (stable per the ECMAScript specification). -/
def sortByScore (le : Int → Int → Bool) (l : List (String × Int)) :
    List (String × Int) :=
  l.foldl (fun acc x => insertByScore le x acc) []

/-- `Array.prototype.slice(start, end)` with JavaScript index clamping. -/
def jsSlice {α : Type} (l : List α) (s e : Int) : List α :=
  let len : Int := l.length
  let s' := if s < 0 then max (len + s) 0 else min s len
  let e' := if e < 0 then max (len + e) 0 else min e len
  (l.drop s'.toNat).take (e' - s').toNat

/-! ## The store of `src/kv.js` -/

/-- Values stored in the keyspace: the claims exercise the string and
sorted-set variants. -/
inductive Value where
  | str (s : String)
  | zset (z : XMap String Int)
deriving DecidableEq

/-- The `kvjs` class state: the keyspace `store` and the deadline side
table `expireTimes` (absolute times in integer milliseconds). -/
structure kvjs where
  store : XMap String Value
  expireTimes : XMap String Int

namespace kvjs

/-- A fresh `new kvjs()` instance. -/
def init : kvjs := ⟨XMap.emptyMap, XMap.emptyMap⟩

/-- `_checkAndRemoveExpiredKey(key)`: passive reaping.  The source guard
is `expireTime && Date.now() > expireTime`, so a deadline of `0` is
falsy and never triggers reaping. -/
def checkAndRemoveExpiredKey (kv : kvjs) (now : Int) (key : String) :
    kvjs × Bool :=
  match kv.expireTimes.get key with
  | some expireTime =>
    if expireTime ≠ 0 ∧ now > expireTime then
      (⟨(kv.store.delete key).1, (kv.expireTimes.delete key).1⟩, true)
    else (kv, false)
  | none => (kv, false)

/-- `get(key)`. -/
def get (kv : kvjs) (now : Int) (key : String) : kvjs × Option Value :=
  let r := checkAndRemoveExpiredKey kv now key
  if r.2 then (r.1, none) else (r.1, r.1.store.get key)

/-- Options object of `set`.  Integer-valued options are `Option Int`;
`undefined` is `none`. -/
structure SetOptions where
  NX : Bool := false
  XX : Bool := false
  GET : Bool := false
  EX : Option Int := none
  PX : Option Int := none
  EXAT : Option Int := none
  PXAT : Option Int := none
  KEEPTTL : Bool := false

/-- Return value of `set`: `undefined`, `true`, or the old value under
the `GET` option. -/
inductive SetResult where
  | undef
  | ok
  | old (v : Option Value)
deriving DecidableEq

/-- `set(key, value, options)`.  The source converts each expiration
option with `EX ? parseInt(EX, 10) : undefined`, so an option whose
value is `0` is falsy and treated exactly like an absent option. -/
def set (kv : kvjs) (now : Int) (key : String) (value : Value)
    (options : SetOptions) : kvjs × SetResult :=
  let ex := options.EX.bind fun e => if e = 0 then none else some e
  let px := options.PX.bind fun e => if e = 0 then none else some e
  let exat := options.EXAT.bind fun e => if e = 0 then none else some e
  let pxat := options.PXAT.bind fun e => if e = 0 then none else some e
  let exists_ := kv.store.has key
  if options.XX ∧ ¬exists_ then (kv, .undef)
  else if options.NX ∧ exists_ then (kv, .undef)
  else
    let oldValue := if options.GET ∧ exists_ then kv.store.get key else none
    let store' := kv.store.set key value
    let expireTimes' :=
      if ex.isSome ∨ px.isSome ∨ exat.isSome ∨ pxat.isSome ∨ options.KEEPTTL then
        let expireTime : Option Int :=
          match ex, px, exat, pxat with
          | some e, _, _, _ => some (now + e * 1000)
          | none, some p, _, _ => some (now + p)
          | none, none, some e, _ => some (e * 1000)
          | none, none, none, some p => some p
          | none, none, none, none =>
            if options.KEEPTTL ∧ exists_ then kv.expireTimes.get key else none
        match expireTime with
        | some t => kv.expireTimes.set key t
        | none => kv.expireTimes
      else (kv.expireTimes.delete key).1
    (⟨store', expireTimes'⟩, if options.GET then .old oldValue else .ok)

/-- Options object of the `expire` family (`NX`/`XX`/`GT`/`LT`). -/
structure ExpireOptions where
  NX : Bool := false
  XX : Bool := false
  GT : Bool := false
  LT : Bool := false

/-- `expire(key, seconds, options)`. -/
def expire (kv : kvjs) (now : Int) (key : String) (seconds : Int)
    (options : ExpireOptions) : kvjs × Nat :=
  if !kv.store.has key then (kv, 0)
  else
    let expireTime := kv.expireTimes.get key
    if options.NX && expireTime.isSome then (kv, 0)
    else if options.XX && expireTime.isNone then (kv, 0)
    else if options.GT &&
        (expireTime.isNone || decide (expireTime.getD 0 ≤ now + seconds * 1000)) then
      (kv, 0)
    else if options.LT &&
        (expireTime.isNone || decide (expireTime.getD 0 ≥ now + seconds * 1000)) then
      (kv, 0)
    else (⟨kv.store, kv.expireTimes.set key (now + seconds * 1000)⟩, 1)

/-- `pttl(key)`: remaining time to live in milliseconds. -/
def pttl (kv : kvjs) (now : Int) (key : String) : Int :=
  if !kv.store.has key then -2
  else if !kv.expireTimes.has key then -1
  else
    let ttl := (kv.expireTimes.get key).getD 0 - now
    if ttl > 0 then ttl else -2

/-- `ttl(key)`: remaining time to live in seconds (`Math.floor` of the
millisecond remainder divided by 1000, which is `Int.fdiv`). -/
def ttl (kv : kvjs) (now : Int) (key : String) : Int :=
  if !kv.store.has key then -2
  else if !kv.expireTimes.has key then -1
  else
    let t := Int.fdiv ((kv.expireTimes.get key).getD 0 - now) 1000
    if t > 0 then t else -2

/-- `pexpire(key, ttlMillis, options)`.  Note the source's `NX`/`XX`
guard tests `this.store.has(key)` — whether the key exists — not
whether a deadline exists. -/
def pexpire (kv : kvjs) (now : Int) (key : String) (ttlMillis : Int)
    (options : ExpireOptions) : kvjs × Nat :=
  if (options.NX && kv.store.has key) || (options.XX && !kv.store.has key) then
    (kv, 0)
  else if (options.GT || options.LT) &&
      ((options.GT && decide (pttl kv now key ≥ ttlMillis)) ||
        (options.LT && decide (pttl kv now key ≤ ttlMillis))) then
    (kv, 0)
  else (⟨kv.store, kv.expireTimes.set key (now + ttlMillis)⟩, 1)

/-- `expireat(key, timestampSeconds, options)`.  The source's leading
`typeof`/`NaN` guard throws on non-numeric input; inputs here are
integers, so that branch is unreachable. -/
def expireat (kv : kvjs) (now : Int) (key : String) (timestampSeconds : Int)
    (options : ExpireOptions) : kvjs × Nat :=
  if !kv.store.has key then (kv, 0)
  else
    let ttlMillis := timestampSeconds * 1000 - now
    if ttlMillis ≤ 0 then
      (⟨(kv.store.delete key).1, (kv.expireTimes.delete key).1⟩, 0)
    else
      let existingTtl := pttl kv now key
      if options.XX && decide (existingTtl = -1) then (kv, 0)
      else if options.NX && !decide (existingTtl = -1) then (kv, 0)
      else if options.GT &&
          (!decide (existingTtl = -1) && decide (ttlMillis ≤ existingTtl)) then
        (kv, 0)
      else if options.LT &&
          (!decide (existingTtl = -1) && decide (ttlMillis ≥ existingTtl)) then
        (kv, 0)
      else pexpire kv now key ttlMillis {}

/-- `keys(pattern)`: all matching, non-expired keys in store iteration
order. -/
def keys (kv : kvjs) (now : Int) (pattern : String) : List String :=
  ((kv.store.entries).filter fun p =>
    simpleMatch p.1 pattern &&
      (match kv.expireTimes.get p.1 with
       | none => true
       | some expireTime => decide (expireTime > now))).map Prod.fst

/-- `scan(cursor, match, count)`. -/
def scan (kv : kvjs) (now : Int) (cursor : Nat) (pat : String) (count : Nat) :
    Nat × List String :=
  let ks := keys kv now pat
  let endIndex := Nat.min (cursor + count) ks.length
  let nextCursor := if endIndex = ks.length then 0 else endIndex
  (nextCursor, (ks.drop cursor).take (endIndex - cursor))

/-- `zadd(key, score, member)`.  On a key holding a non-sorted-set value
the source throws a `TypeError` (`sortedSet.set` is not a function)
without changing state; that branch is modelled as returning the state
unchanged. -/
def zadd (kv : kvjs) (now : Int) (key : String) (score : Int)
    (member : String) : kvjs × Nat :=
  let r := checkAndRemoveExpiredKey kv now key
  if r.2 then (r.1, 0)
  else
    let kv1 := r.1
    let kv2 :=
      if kv1.store.has key then kv1
      else ⟨kv1.store.set key (.zset XMap.emptyMap), kv1.expireTimes⟩
    match kv2.store.get key with
    | some (.zset z) =>
      (⟨kv2.store.set key (.zset (z.set member score)), kv2.expireTimes⟩, 1)
    | _ => (kv2, 1)

/-- `zscore(key, member)`.  No expiration check: the store is read
directly.  A key holding a falsy non-sorted-set value yields
`undefined`; a truthy one makes the source throw — modelled as `none`. -/
def zscore (kv : kvjs) (key member : String) : Option Int :=
  match kv.store.get key with
  | some (.zset z) => z.get member
  | _ => none

/-- `this.store.get(key) || new XMap()` for the range operations; a key
holding a non-sorted-set value makes the source throw, modelled as the
empty collection. -/
def getSortedSet (kv : kvjs) (key : String) : XMap String Int :=
  match kv.store.get key with
  | some (.zset z) => z
  | _ => XMap.emptyMap

/-- `zrange(key, start, stop)` — no expiration check in the source. -/
def zrange (kv : kvjs) (key : String) (start stop : Int) :
    List (String × Int) :=
  let sortedMembers := sortByScore (fun a b => decide (a ≤ b))
    (getSortedSet kv key).entries
  let len : Int := sortedMembers.length
  let start := if start < 0 then len + start else start
  let stop := if stop < 0 then len + stop else stop
  jsSlice sortedMembers start (stop + 1)

/-- `zrevrange(key, start, stop)`. -/
def zrevrange (kv : kvjs) (key : String) (start stop : Int) :
    List (String × Int) :=
  let sortedMembers := sortByScore (fun a b => decide (b ≤ a))
    (getSortedSet kv key).entries
  let len : Int := sortedMembers.length
  let start := if start < 0 then len + start else start
  let stop := if stop < 0 then len + stop else stop
  jsSlice sortedMembers start (stop + 1)

/-- Options of `zrangebyscore`: `withscores` and `limit: {offset, count}`. -/
structure ZRangeByScoreOptions where
  withscores : Bool := false
  limit : Option (Int × Int) := none

/-- Result of `zrangebyscore`: `[member, score]` pairs with the
`withscores` option, plain members otherwise. -/
inductive ZItems where
  | pairs (l : List (String × Int))
  | members (l : List String)
deriving DecidableEq

/-- `zrangebyscore(key, min, max, options)` — no expiration check. -/
def zrangebyscore (kv : kvjs) (key : String) (min max : Int)
    (options : ZRangeByScoreOptions) : ZItems :=
  let sortedMembers := sortByScore (fun a b => decide (a ≤ b))
    (getSortedSet kv key).entries
  let filtered := sortedMembers.filter fun p =>
    decide (p.2 ≥ min) && decide (p.2 ≤ max)
  if options.withscores then
    .pairs (match options.limit with
      | some (o, c) => jsSlice filtered o (o + c)
      | none => filtered)
  else
    .members (match options.limit with
      | some (o, c) => jsSlice (filtered.map Prod.fst) o (o + c)
      | none => filtered.map Prod.fst)

/-- `zrevrangebyscore(key, max, min, options)`. -/
def zrevrangebyscore (kv : kvjs) (key : String) (max min : Int)
    (options : ZRangeByScoreOptions) : ZItems :=
  let sortedMembers := sortByScore (fun a b => decide (b ≤ a))
    (getSortedSet kv key).entries
  let filtered := sortedMembers.filter fun p =>
    decide (p.2 ≥ min) && decide (p.2 ≤ max)
  if options.withscores then
    .pairs (match options.limit with
      | some (o, c) => jsSlice filtered o (o + c)
      | none => filtered)
  else
    .members (match options.limit with
      | some (o, c) => jsSlice (filtered.map Prod.fst) o (o + c)
      | none => filtered.map Prod.fst)

end kvjs

/-- Score-sortedness of a range result: a `pairs` result is sorted by
`r` on scores; a `members` result is the member projection of such a
sorted pair list. -/
def kvjs.ZItems.sortedBy (r : Int → Int → Prop) : kvjs.ZItems → Prop
  | .pairs l => l.Pairwise (fun a b => r a.2 b.2)
  | .members l => ∃ lp : List (String × Int),
      lp.Pairwise (fun a b => r a.2 b.2) ∧ l = lp.map Prod.fst

/-! ## Concrete states shared by the claim theorems -/

/-- A store holding the single key `"k"` (value `"v"`) with no deadline. -/
def kvOneKey : kvjs := ⟨⟨[("k", Value.str "v")], []⟩, ⟨[], []⟩⟩

/-- `"k"` present with deadline 10000 ms. -/
def kvK10000 : kvjs := ⟨⟨[("k", Value.str "v")], []⟩, ⟨[("k", 10000)], []⟩⟩

/-- `"k"` present with deadline 500 ms. -/
def kvShortTtl : kvjs := ⟨⟨[("k", Value.str "v")], []⟩, ⟨[("k", 500)], []⟩⟩

/-- `"z"` holds the sorted set `{m ↦ 1}` and its deadline 5 ms is
already in the past at `now = 10`: expired but not yet swept. -/
def kvStale : kvjs :=
  ⟨⟨[("z", Value.zset ⟨[("m", 1)], []⟩)], []⟩, ⟨[("z", 5)], []⟩⟩

/-- `zadd("z", 5, "b")` then `zadd("z", 5, "a")` from a fresh instance:
two members with equal scores, inserted in the order `b`, `a`. -/
def kvTies : kvjs :=
  (kvjs.zadd (kvjs.zadd kvjs.init 0 "z" 5 "b").1 0 "z" 5 "a").1

/-- `set("key1","value1")`; `set("key2","value2")`; `set("key3","value3")`
from a fresh instance. -/
def kvScan3 : kvjs :=
  (kvjs.set (kvjs.set (kvjs.set kvjs.init 0 "key1" (.str "value1") {}).1
    0 "key2" (.str "value2") {}).1 0 "key3" (.str "value3") {}).1

/-- `"k"` present with value `"old"` and a (past) deadline 1 ms. -/
def kvPrior : kvjs := ⟨⟨[("k", Value.str "old")], []⟩, ⟨[("k", 1)], []⟩⟩

/-- A backing shard filled exactly to the capacity ceiling, not
containing the key `0`. -/
def bigShard : XMap.Shard Nat Nat :=
  (List.range XMap.SHARD_CAPACITY).map (fun i => (i + 1, 0))

/-- An `XMap` whose newest shard is `bigShard`. -/
def bigM : XMap Nat Nat := ⟨bigShard, []⟩

namespace XMap

variable {κ ν : Type} [DecidableEq κ]

/-! ## Shard-level lemmas -/

theorem shardGet_isSome (s : Shard κ ν) (k : κ) :
    (shardGet s k).isSome = shardHas s k := by
  induction s with
  | nil => rfl
  | cons p rest ih =>
    by_cases h : p.1 = k <;>
      simp [shardGet, shardHas, List.find?, List.any, h] at ih ⊢ <;>
      simpa [shardGet, shardHas] using ih

theorem shardHas_shardSet_self (s : Shard κ ν) (k : κ) (v : ν) :
    shardHas (shardSet s k v) k = true := by
  induction s with
  | nil => simp [shardSet, shardHas]
  | cons p rest ih =>
    by_cases h : p.1 = k <;> simp [shardSet, shardHas, h] at ih ⊢ <;> exact ih

theorem shardGet_shardSet_self (s : Shard κ ν) (k : κ) (v : ν) :
    shardGet (shardSet s k v) k = some v := by
  induction s with
  | nil => simp [shardSet, shardGet, List.find?]
  | cons p rest ih =>
    by_cases h : p.1 = k <;> simp [shardSet, shardGet, List.find?, h] at ih ⊢ <;> exact ih

theorem shardSet_of_not_has (s : Shard κ ν) (k : κ) (v : ν)
    (h : shardHas s k = false) : shardSet s k v = s ++ [(k, v)] := by
  induction s with
  | nil => simp [shardSet]
  | cons p rest ih =>
    simp only [shardHas, List.any_cons, Bool.or_eq_false_iff,
      decide_eq_false_iff_not] at h
    rw [shardSet, if_neg h.1, ih ?_]
    · simp
    · simp only [shardHas, List.any_eq_false, decide_eq_true_eq]
      simpa [shardHas, List.any_eq_false] using h.2

/-- If a backing map contains `k`, some value is stored under `k`. -/
theorem shardHas_exists {s : Shard κ ν} {k : κ} (h : shardHas s k = true) :
    ∃ v, (k, v) ∈ s := by
  simp only [shardHas, List.any_eq_true, decide_eq_true_eq] at h
  obtain ⟨p, hp, hk⟩ := h
  exact ⟨p.2, by rw [← hk]; simpa using hp⟩

theorem shardHas_eraseP (s : Shard κ ν) (k : κ)
    (h : (s.map Prod.fst).Nodup) :
    shardHas (s.eraseP (fun p => decide (p.1 = k))) k = false := by
  induction s with
  | nil => rfl
  | cons p rest ih =>
    simp only [List.map_cons, List.nodup_cons] at h
    by_cases hp : p.1 = k
    · rw [List.eraseP_cons_of_pos (by simp [hp])]
      subst hp
      simp only [shardHas, List.any_eq_false, decide_eq_true_eq]
      intro q hq hqk
      exact h.1 (hqk ▸ List.mem_map_of_mem Prod.fst hq)
    · rw [List.eraseP_cons_of_neg (by simp [hp])]
      simp only [shardHas, List.any_cons, Bool.or_eq_false_iff,
        decide_eq_false_iff_not]
      exact ⟨hp, by simpa [shardHas] using ih h.2⟩

/-! ## Pool-level lemmas -/

theorem getFromPool_isSome (pool : List (Shard κ ν)) (k : κ) :
    (getFromPool pool k).isSome = pool.any (fun s => shardHas s k) := by
  induction pool with
  | nil => rfl
  | cons s ss ih =>
    by_cases h : shardHas s k <;> simp [getFromPool, h, shardGet_isSome, ih]

theorem has_eq_get_isSome (m : XMap κ ν) (k : κ) :
    m.has k = (m.get k).isSome := by
  simp [has, get, getFromPool_isSome]

theorem get_eq_none_iff (m : XMap κ ν) (k : κ) :
    m.get k = none ↔ m.has k = false := by
  rw [has_eq_get_isSome]
  cases m.get k <;> simp

theorem getFromPool_setInPool_self (pool : List (Shard κ ν)) (k : κ) (v : ν)
    (h : pool.any (fun s => shardHas s k) = true) :
    getFromPool (setInPool pool k v) k = some v := by
  induction pool with
  | nil => simp at h
  | cons s ss ih =>
    by_cases hs : shardHas s k
    · simp [setInPool, hs, getFromPool, shardHas_shardSet_self, shardGet_shardSet_self]
    · simp only [List.any_cons, hs, Bool.false_or] at h
      simp [setInPool, hs, getFromPool, ih h]

theorem get_set_self (m : XMap κ ν) (k : κ) (v : ν) :
    (m.set k v).get k = some v := by
  rw [set]
  by_cases h1 : shardHas m.first k
  · rw [if_pos h1]
    show getFromPool (shardSet m.first k v :: m.rest) k = some v
    simp only [getFromPool, shardHas_shardSet_self, if_pos, shardGet_shardSet_self]
  · rw [if_neg (by simp [h1])]
    by_cases h2 : m.rest.any (fun s => shardHas s k)
    · rw [if_pos h2]
      show getFromPool (m.first :: setInPool m.rest k v) k = some v
      simp only [getFromPool, h1, Bool.false_eq_true, if_false,
        getFromPool_setInPool_self _ _ _ h2]
    · rw [if_neg (by simp [h2])]
      by_cases h3 : SHARD_CAPACITY ≤ m.first.length
      · rw [if_pos h3]
        show getFromPool ([(k, v)] :: m.first :: m.rest) k = some v
        simp [getFromPool, shardHas, shardGet]
      · rw [if_neg h3]
        show getFromPool (shardSet m.first k v :: m.rest) k = some v
        simp only [getFromPool, shardHas_shardSet_self, if_pos, shardGet_shardSet_self]

theorem has_set_self (m : XMap κ ν) (k : κ) (v : ν) :
    (m.set k v).has k = true := by
  rw [has_eq_get_isSome, get_set_self]
  rfl

theorem getFromPool_of_all_not_has (pool : List (Shard κ ν)) (k : κ)
    (h : ∀ s ∈ pool, shardHas s k = false) :
    getFromPool pool k = none := by
  induction pool with
  | nil => rfl
  | cons s ss ih =>
    simp [getFromPool, h s (by simp), ih (fun t ht => h t (by simp [ht]))]

theorem getFromPool_deleteFromPool_self (pool : List (Shard κ ν)) (k : κ)
    (h : WFpool pool) :
    getFromPool (deleteFromPool pool k).1 k = none := by
  induction pool with
  | nil => rfl
  | cons s ss ih =>
    obtain ⟨hnodup, hdisj⟩ := h
    rw [List.pairwise_cons] at hdisj
    by_cases hs : shardHas s k
    · have hrest : ∀ t ∈ ss, shardHas t k = false := by
        intro t ht
        obtain ⟨v, hv⟩ := shardHas_exists hs
        exact hdisj.1 t ht (k, v) hv
      simp [deleteFromPool, hs, getFromPool,
        shardHas_eraseP s k (hnodup s (by simp)),
        getFromPool_of_all_not_has ss k hrest]
    · simp only [deleteFromPool, hs]
      simp [getFromPool, hs,
        ih ⟨fun t ht => hnodup t (by simp [ht]), hdisj.2⟩]

theorem get_delete_self (m : XMap κ ν) (k : κ) (h : m.WF) :
    (m.delete k).1.get k = none := by
  obtain ⟨hnodup, hdisj⟩ := h
  rw [pool, List.pairwise_cons] at hdisj
  rw [delete]
  by_cases hs : shardHas m.first k
  · have hrest : ∀ t ∈ m.rest, shardHas t k = false := by
      intro t ht
      obtain ⟨v, hv⟩ := shardHas_exists hs
      exact hdisj.1 t ht (k, v) hv
    rw [if_pos hs]
    show getFromPool (m.first.eraseP (fun p => decide (p.1 = k)) :: m.rest) k = none
    simp [getFromPool,
      shardHas_eraseP m.first k (hnodup m.first (by simp [pool])),
      getFromPool_of_all_not_has m.rest k hrest]
  · rw [if_neg (by simp [hs])]
    show getFromPool (m.first :: (deleteFromPool m.rest k).1) k = none
    simp [getFromPool, hs,
      getFromPool_deleteFromPool_self m.rest k
        ⟨fun t ht => hnodup t (by simp [pool, ht]), hdisj.2⟩]

theorem setInPool_eq_set_of_has (pool : List (Shard κ ν)) (k : κ) (v : ν)
    (h : pool.any (fun s => shardHas s k) = true) :
    ∃ i, ∃ hi : i < pool.length,
      shardHas (pool.get ⟨i, hi⟩) k = true ∧
        setInPool pool k v = pool.set i (shardSet (pool.get ⟨i, hi⟩) k v) := by
  induction pool with
  | nil => simp at h
  | cons s ss ih =>
    by_cases hs : shardHas s k
    · exact ⟨0, by simp, hs, by simp [setInPool, hs]⟩
    · simp only [List.any_cons, hs, Bool.false_or] at h
      obtain ⟨i, hi, hhas, heq⟩ := ih h
      exact ⟨i + 1, by simpa using hi, hhas, by simp [setInPool, hs, heq]⟩

end XMap

/-! ## Ordering lemmas for the stable score sort -/

theorem mem_insertByScore (le : Int → Int → Bool) (x y : String × Int)
    (l : List (String × Int)) (h : y ∈ insertByScore le x l) :
    y = x ∨ y ∈ l := by
  induction l with
  | nil => simpa [insertByScore] using h
  | cons z zs ih =>
    by_cases hc : le z.2 x.2
    · rw [insertByScore, if_pos hc] at h
      rcases List.mem_cons.mp h with h | h
      · exact Or.inr (by simp [h])
      · rcases ih h with h | h
        · exact Or.inl h
        · exact Or.inr (by simp [h])
    · rw [insertByScore, if_neg hc] at h
      rcases List.mem_cons.mp h with h | h
      · exact Or.inl h
      · exact Or.inr h

theorem pairwise_insertByScore (le : Int → Int → Bool)
    (htrans : ∀ a b c, le a b = true → le b c = true → le a c = true)
    (htot : ∀ a b, le a b = true ∨ le b a = true)
    (x : String × Int) (l : List (String × Int))
    (h : l.Pairwise (fun a b => le a.2 b.2 = true)) :
    (insertByScore le x l).Pairwise (fun a b => le a.2 b.2 = true) := by
  induction l with
  | nil => simp [insertByScore]
  | cons y ys ih =>
    rw [List.pairwise_cons] at h
    rw [insertByScore]
    split
    · rw [List.pairwise_cons]
      refine ⟨fun z hz => ?_, ih h.2⟩
      rcases mem_insertByScore le x z ys hz with hzx | hzy
      · subst hzx; assumption
      · exact h.1 z hzy
    · rw [List.pairwise_cons]
      rename_i hyx
      have hxy : le x.2 y.2 = true := by
        rcases htot x.2 y.2 with ht | ht
        · exact ht
        · exact absurd ht hyx
      refine ⟨fun z hz => ?_, List.pairwise_cons.mpr h⟩
      rcases List.mem_cons.mp hz with hzy | hzys
      · exact hzy ▸ hxy
      · exact htrans _ _ _ hxy (h.1 z hzys)

theorem pairwise_sortByScore (le : Int → Int → Bool)
    (htrans : ∀ a b c, le a b = true → le b c = true → le a c = true)
    (htot : ∀ a b, le a b = true ∨ le b a = true)
    (l : List (String × Int)) :
    (sortByScore le l).Pairwise (fun a b => le a.2 b.2 = true) := by
  rw [sortByScore]
  suffices h : ∀ acc, acc.Pairwise (fun a b => le a.2 b.2 = true) →
      (l.foldl (fun acc x => insertByScore le x acc) acc).Pairwise
        (fun a b => le a.2 b.2 = true) by
    exact h [] (by simp)
  induction l with
  | nil => exact fun acc hacc => hacc
  | cons x xs ih =>
    exact fun acc hacc =>
      ih (insertByScore le x acc) (pairwise_insertByScore le htrans htot x acc hacc)

theorem pairwise_sortByScore_le (l : List (String × Int)) :
    (sortByScore (fun a b => decide (a ≤ b)) l).Pairwise (fun a b => a.2 ≤ b.2) := by
  have h := pairwise_sortByScore (fun a b => decide (a ≤ b))
    (fun a b c hab hbc => by
      simp only [decide_eq_true_eq] at *
      omega)
    (fun a b => by
      simp only [decide_eq_true_eq]
      omega)
    l
  exact h.imp (by simp)

theorem pairwise_sortByScore_ge (l : List (String × Int)) :
    (sortByScore (fun a b => decide (b ≤ a)) l).Pairwise (fun a b => b.2 ≤ a.2) := by
  have h := pairwise_sortByScore (fun a b => decide (b ≤ a))
    (fun a b c hab hbc => by
      simp only [decide_eq_true_eq] at *
      omega)
    (fun a b => by
      simp only [decide_eq_true_eq]
      omega)
    l
  exact h.imp (by simp)

theorem jsSlice_sublist {α : Type} (l : List α) (s e : Int) :
    (jsSlice l s e).Sublist l := by
  rw [jsSlice]
  exact (List.take_sublist _ _).trans (List.drop_sublist _ _)

theorem jsSlice_map {α β : Type} (f : α → β) (l : List α) (s e : Int) :
    jsSlice (l.map f) s e = (jsSlice l s e).map f := by
  simp [jsSlice, List.map_take, List.map_drop]

/-! ## Kv-level helper lemmas -/

/-- With no tracked deadline, the passive expiry check is a no-op and
`get` reads the store directly. -/
theorem kvjs_get_of_no_deadline (kv : kvjs) (now : Int) (key : String)
    (h : kv.expireTimes.get key = none) :
    kvjs.get kv now key = (kv, kv.store.get key) := by
  simp [kvjs.get, kvjs.checkAndRemoveExpiredKey, h]

/-- `set` with any single expiration option whose value is `0` stores
the value and deletes any tracked deadline (the zero option is falsy in
`EX ? parseInt(EX, 10) : undefined`). -/
theorem kvjs_set_zero_opt_state (kv : kvjs) (now : Int) (key : String)
    (value : Value) (o : kvjs.SetOptions)
    (ho : o = {EX := some 0} ∨ o = {PX := some 0} ∨ o = {EXAT := some 0} ∨
      o = {PXAT := some 0}) :
    (kvjs.set kv now key value o).1 =
      ⟨kv.store.set key value, (kv.expireTimes.delete key).1⟩ := by
  rcases ho with h | h | h | h <;> subst h <;> simp [kvjs.set]

/-! ## Claim C1 -/

/-- C1 (counterexample): the claim states that after `expire("k", 10)`,
the call `expire("k", 5, {GT: true})` returns 0 and leaves the ~10s
deadline unchanged.  On the code it returns 1 and overwrites the
deadline with the smaller one (~5s): the GT comparison is inverted. -/
theorem c1_counterexample :
    (kvjs.expire kvOneKey 0 "k" 10 {}).1.expireTimes.get "k" = some 10000 ∧
    (kvjs.expire (kvjs.expire kvOneKey 0 "k" 10 {}).1 0 "k" 5 {GT := true}).2 = 1 ∧
    (kvjs.expire (kvjs.expire kvOneKey 0 "k" 10 {}).1 0 "k" 5
      {GT := true}).1.expireTimes.get "k" = some 5000 := by
  decide

/-- C1 (amended): for an existing key, `expire(k, seconds, {GT: true})`
succeeds (returns 1 and stores the new deadline) if and only if the key
has a deadline and the new deadline `now + seconds*1000` is strictly
LESS than the current one, and `{LT: true}` succeeds iff the new
deadline is strictly GREATER — the opposite of the claim; a rejected
call returns 0 and leaves the state unchanged. -/
theorem c1_expire_gt_lt_amended (kv : kvjs) (now : Int) (key : String)
    (seconds : Int) (h : kv.store.has key = true) :
    ((kvjs.expire kv now key seconds {GT := true}).2 = 1 ↔
      ∃ t, kv.expireTimes.get key = some t ∧ now + seconds * 1000 < t) ∧
    ((kvjs.expire kv now key seconds {LT := true}).2 = 1 ↔
      ∃ t, kv.expireTimes.get key = some t ∧ t < now + seconds * 1000) ∧
    ((kvjs.expire kv now key seconds {GT := true}).2 = 1 →
      (kvjs.expire kv now key seconds {GT := true}).1 =
        ⟨kv.store, kv.expireTimes.set key (now + seconds * 1000)⟩) ∧
    ((kvjs.expire kv now key seconds {GT := true}).2 = 0 →
      (kvjs.expire kv now key seconds {GT := true}).1 = kv) ∧
    ((kvjs.expire kv now key seconds {LT := true}).2 = 1 →
      (kvjs.expire kv now key seconds {LT := true}).1 =
        ⟨kv.store, kv.expireTimes.set key (now + seconds * 1000)⟩) ∧
    ((kvjs.expire kv now key seconds {LT := true}).2 = 0 →
      (kvjs.expire kv now key seconds {LT := true}).1 = kv) := by
  cases het : kv.expireTimes.get key with
  | none => simp [kvjs.expire, h, het]
  | some t =>
    by_cases hle : t ≤ now + seconds * 1000
    · by_cases hge : t ≥ now + seconds * 1000
      · simp [kvjs.expire, h, het, hle, hge] <;> omega
      · simp [kvjs.expire, h, het, hle, hge] <;> omega
    · by_cases hge : t ≥ now + seconds * 1000
      · simp [kvjs.expire, h, het, hle, hge] <;> omega
      · simp [kvjs.expire, h, het, hle, hge] <;> omega

/-- C1 witness: the amended theorem applied to a concrete state with a
10000 ms deadline. -/
theorem c1_witness :
    kvK10000.store.has "k" = true ∧
      ((kvjs.expire kvK10000 0 "k" 5 {GT := true}).2 = 1 ↔
        ∃ t, kvK10000.expireTimes.get "k" = some t ∧ 0 + 5 * 1000 < t) :=
  ⟨by decide, (c1_expire_gt_lt_amended kvK10000 0 "k" 5 (by decide)).1⟩

/-! ## Claim C2 -/

/-- C2: the claim that no operation ever returns an expired entry's
value is violated.  In `kvStale` the key `"z"` has deadline 5, in the
past at `now = 10`.  `get` does reap it and reports absence, but
`zscore`, `zrange` and `zrangebyscore` read the store directly with no
expiration check and return the stale member and score. -/
theorem c2_expired_read_returns_stale :
    kvStale.expireTimes.get "z" = some 5 ∧ (5 : Int) < 10 ∧
    (kvjs.get kvStale 10 "z").2 = none ∧
    kvjs.zscore kvStale "z" "m" = some 1 ∧
    kvjs.zrange kvStale "z" 0 (-1) = [("m", 1)] ∧
    kvjs.zrangebyscore kvStale "z" 0 5 {} = .members ["m"] := by
  decide

/-! ## Claim C3 -/

/-- C3 (counterexample): on an existing key with no deadline,
`pexpire(k, 1000, {GT: true})` returns 1 and stores the deadline —
the claim says every `expire`-family call with `GT` returns 0 there. -/
theorem c3_counterexample :
    kvOneKey.store.has "k" = true ∧
    kvOneKey.expireTimes.get "k" = none ∧
    (kvjs.pexpire kvOneKey 0 "k" 1000 {GT := true}).2 = 1 ∧
    (kvjs.pexpire kvOneKey 0 "k" 1000 {GT := true}).1.expireTimes.get "k" =
      some 1000 := by
  decide

/-- C3 (amended): on an existing key with no deadline, `expire` with
`GT` or `LT` returns 0 and stores nothing, and `pexpire` with `LT`
returns 0; but `pexpire` with `GT` (for a non-negative TTL) and
`expireat` with `GT` or `LT` (for a future timestamp) store the
deadline and return 1. -/
theorem c3_no_deadline_gt_lt_amended (kv : kvjs) (now : Int) (key : String)
    (seconds ttlMillis ts : Int)
    (hk : kv.store.has key = true) (hnd : kv.expireTimes.get key = none)
    (httl : 0 ≤ ttlMillis) (hts : now < ts * 1000) :
    kvjs.expire kv now key seconds {GT := true} = (kv, 0) ∧
    kvjs.expire kv now key seconds {LT := true} = (kv, 0) ∧
    kvjs.pexpire kv now key ttlMillis {LT := true} = (kv, 0) ∧
    kvjs.pexpire kv now key ttlMillis {GT := true} =
      (⟨kv.store, kv.expireTimes.set key (now + ttlMillis)⟩, 1) ∧
    kvjs.expireat kv now key ts {GT := true} =
      (⟨kv.store, kv.expireTimes.set key (now + (ts * 1000 - now))⟩, 1) ∧
    kvjs.expireat kv now key ts {LT := true} =
      (⟨kv.store, kv.expireTimes.set key (now + (ts * 1000 - now))⟩, 1) := by
  have hhas : kv.expireTimes.has key = false :=
    (XMap.get_eq_none_iff kv.expireTimes key).mp hnd
  have hpttl : kvjs.pttl kv now key = -1 := by
    simp [kvjs.pttl, hk, hhas]
  refine ⟨?_, ?_, ?_, ?_, ?_, ?_⟩
  · simp [kvjs.expire, hk, hnd]
  · simp [kvjs.expire, hk, hnd]
  · simp [kvjs.pexpire, hk, hpttl]
    omega
  · simp [kvjs.pexpire, hk, hpttl]
    omega
  · simp [kvjs.expireat, kvjs.pexpire, hk, hpttl]
    omega
  · simp [kvjs.expireat, kvjs.pexpire, hk, hpttl]
    omega

/-- C3 witness: the amended theorem at a concrete one-key store. -/
theorem c3_witness :
    kvOneKey.store.has "k" = true ∧ kvOneKey.expireTimes.get "k" = none ∧
      kvjs.expire kvOneKey 0 "k" 7 {GT := true} = (kvOneKey, 0) :=
  ⟨by decide, by decide,
    (c3_no_deadline_gt_lt_amended kvOneKey 0 "k" 7 1000 7 (by decide) (by decide)
      (by decide) (by decide)).1⟩

/-! ## Claim C4 -/

/-- C4: `pexpire` with `{NX: true}` on a key present in the store
always returns 0 with the state unchanged — even when the key has no
deadline.  The source guard is `NX && this.store.has(key)`: it tests
key existence, not deadline existence, contradicting the function's own
documentation ("NX: … if the key does not have an expiration time"). -/
theorem c4_pexpire_nx_rejects_present_keys (kv : kvjs) (now : Int)
    (key : String) (ttlMillis : Int) (h : kv.store.has key = true) :
    kvjs.pexpire kv now key ttlMillis {NX := true} = (kv, 0) := by
  simp [kvjs.pexpire, h]

/-- C4 witness: concrete failing input — `"k"` present with no
deadline, `pexpire("k", 1000, {NX: true})` returns 0 and stores no
deadline (the claim says it must store it and return 1). -/
theorem c4_witness :
    kvOneKey.expireTimes.get "k" = none ∧
      kvjs.pexpire kvOneKey 0 "k" 1000 {NX := true} = (kvOneKey, 0) :=
  ⟨by decide, c4_pexpire_nx_rejects_present_keys kvOneKey 0 "k" 1000 (by decide)⟩

/-! ## Claim C5 -/

/-- C5 (counterexample): `"k"` is live — its deadline 500 is strictly
in the future at `now = 0` — yet `ttl` returns −2, not a positive
duration, and no deletion happens (`ttl` reads but never writes). -/
theorem c5_counterexample :
    kvShortTtl.expireTimes.get "k" = some 500 ∧ (0 : Int) < 500 ∧
    kvjs.ttl kvShortTtl 0 "k" = -2 ∧
    kvjs.pttl kvShortTtl 0 "k" = 500 := by
  decide

/-- C5 (amended): `pttl`/`ttl` return −2 for an absent key and −1 for a
key with no deadline; `pttl` returns the positive millisecond remainder
for a deadline in the future and −2 for a non-positive remainder;
`ttl` returns the positive `floor((deadline − now)/1000)` only when at
least one full second remains and −2 otherwise — including for a live
key with a sub-second remainder; neither ever returns 0, and neither
deletes anything (both are pure queries of the state). -/
theorem c5_ttl_pttl_amended (kv : kvjs) (now : Int) (key : String) :
    (kv.store.has key = false →
      kvjs.pttl kv now key = -2 ∧ kvjs.ttl kv now key = -2) ∧
    (kv.store.has key = true → kv.expireTimes.get key = none →
      kvjs.pttl kv now key = -1 ∧ kvjs.ttl kv now key = -1) ∧
    (∀ t, kv.store.has key = true → kv.expireTimes.get key = some t →
      (0 < t - now → kvjs.pttl kv now key = t - now) ∧
      (t - now ≤ 0 → kvjs.pttl kv now key = -2 ∧ kvjs.ttl kv now key = -2) ∧
      (1000 ≤ t - now →
        kvjs.ttl kv now key = (t - now).fdiv 1000 ∧ 0 < kvjs.ttl kv now key) ∧
      (0 < t - now → t - now < 1000 → kvjs.ttl kv now key = -2)) ∧
    kvjs.pttl kv now key ≠ 0 ∧ kvjs.ttl kv now key ≠ 0 := by
  constructor
  · intro h
    simp [kvjs.pttl, kvjs.ttl, h]
  constructor
  · intro h hnd
    have hhas : kv.expireTimes.has key = false :=
      (XMap.get_eq_none_iff kv.expireTimes key).mp hnd
    simp [kvjs.pttl, kvjs.ttl, h, hhas]
  constructor
  · intro t h ht
    have hhas : kv.expireTimes.has key = true := by
      rw [XMap.has_eq_get_isSome, ht]; rfl
    have hfd : (t - now).fdiv 1000 = (t - now) / 1000 :=
      Int.fdiv_eq_ediv _ (by omega)
    refine ⟨fun hpos => ?_, fun hneg => ?_, fun hsec => ?_, fun hpos hsub => ?_⟩
    · simp [kvjs.pttl, h, hhas, ht, hpos]
    · constructor
      · simp [kvjs.pttl, h, hhas, ht]
        omega
      · simp only [kvjs.ttl, h, hhas, ht]
        simp [hfd]
        omega
    · simp only [kvjs.ttl, h, hhas, ht]
      simp [hfd]
      omega
    · simp only [kvjs.ttl, h, hhas, ht]
      simp [hfd]
      omega
  constructor
  · rw [kvjs.pttl]
    split
    · omega
    · split
      · omega
      · dsimp only
        split <;> omega
  · rw [kvjs.ttl]
    split
    · omega
    · split
      · omega
      · dsimp only
        split <;> omega

/-- C5 witness: the amended theorem at the concrete 500 ms state. -/
theorem c5_witness :
    kvShortTtl.store.has "k" = true ∧
      kvShortTtl.expireTimes.get "k" = some 500 ∧
      (0 : Int) < 500 - 0 ∧ 500 - 0 < 1000 ∧
      kvjs.ttl kvShortTtl 0 "k" = -2 :=
  ⟨by decide, by decide, by decide, by decide,
    ((c5_ttl_pttl_amended kvShortTtl 0 "k").2.2.1 500 (by decide) (by decide)).2.2.2
      (by decide) (by decide)⟩


/-! ## Claim C6 -/

/-- C6 (counterexample): with `zadd("z",5,"b")` then `zadd("z",5,"a")`,
`zrange("z", 0, -1)` returns `[("b",5), ("a",5)]`, not the
`[("a",5), ("b",5)]` that the claimed `(score asc, member asc)` order
requires: equal scores stay in insertion order. -/
theorem c6_counterexample :
    kvjs.zrange kvTies "z" 0 (-1) = [("b", 5), ("a", 5)] ∧
    kvjs.zrange kvTies "z" 0 (-1) ≠ [("a", 5), ("b", 5)] := by
  decide

/-- C6 (amended): every range-by-rank and range-by-score result is
sorted by score — non-decreasing for `zrange`/`zrangebyscore`,
non-increasing for the reverse variants — but members with equal
scores appear in their insertion order (the sort is stable and compares
scores only), not necessarily in ascending member order. -/
theorem c6_range_sorted_amended (kv : kvjs) (key : String)
    (start stop mn mx : Int) (lim : Option (Int × Int)) (ws : Bool) :
    (kvjs.zrange kv key start stop).Pairwise (fun a b => a.2 ≤ b.2) ∧
    (kvjs.zrevrange kv key start stop).Pairwise (fun a b => b.2 ≤ a.2) ∧
    (kvjs.zrangebyscore kv key mn mx ⟨ws, lim⟩).sortedBy (fun a b => a ≤ b) ∧
    (kvjs.zrevrangebyscore kv key mx mn ⟨ws, lim⟩).sortedBy (fun a b => b ≤ a) := by
  have hasc := pairwise_sortByScore_le (kvjs.getSortedSet kv key).entries
  have hdesc := pairwise_sortByScore_ge (kvjs.getSortedSet kv key).entries
  have hascf : ((sortByScore (fun a b => decide (a ≤ b))
      (kvjs.getSortedSet kv key).entries).filter
        (fun p => decide (p.2 ≥ mn) && decide (p.2 ≤ mx))).Pairwise
      (fun a b => a.2 ≤ b.2) :=
    List.Pairwise.sublist (List.filter_sublist _) hasc
  have hdescf : ((sortByScore (fun a b => decide (b ≤ a))
      (kvjs.getSortedSet kv key).entries).filter
        (fun p => decide (p.2 ≥ mn) && decide (p.2 ≤ mx))).Pairwise
      (fun a b => b.2 ≤ a.2) :=
    List.Pairwise.sublist (List.filter_sublist _) hdesc
  refine ⟨?_, ?_, ?_, ?_⟩
  · exact List.Pairwise.sublist (jsSlice_sublist _ _ _) hasc
  · exact List.Pairwise.sublist (jsSlice_sublist _ _ _) hdesc
  · cases ws
    · rcases lim with _ | ⟨o, c⟩
      · exact ⟨_, hascf, rfl⟩
      · exact ⟨jsSlice _ o (o + c),
          List.Pairwise.sublist (jsSlice_sublist _ _ _) hascf,
          jsSlice_map Prod.fst _ o (o + c)⟩
    · rcases lim with _ | ⟨o, c⟩
      · exact hascf
      · exact List.Pairwise.sublist (jsSlice_sublist _ _ _) hascf
  · cases ws
    · rcases lim with _ | ⟨o, c⟩
      · exact ⟨_, hdescf, rfl⟩
      · exact ⟨jsSlice _ o (o + c),
          List.Pairwise.sublist (jsSlice_sublist _ _ _) hdescf,
          jsSlice_map Prod.fst _ o (o + c)⟩
    · rcases lim with _ | ⟨o, c⟩
      · exact hdescf
      · exact List.Pairwise.sublist (jsSlice_sublist _ _ _) hdescf

/-! ## Claim C7 -/

/-- C7 (counterexample): member `"a"` is already in the sorted set
(`zscore` finds it with score 5), yet `zadd("z", 7, "a")` — a pure
score update — returns 1, where the claim requires 0. -/
theorem c7_counterexample :
    kvjs.zscore kvTies "z" "a" = some 5 ∧
    (kvjs.zadd kvTies 0 "z" 7 "a").2 = 1 ∧
    kvjs.zscore (kvjs.zadd kvTies 0 "z" 7 "a").1 "z" "a" = some 7 := by
  decide

/-- C7 (amended): `zadd` returns 0 exactly when the key was expired at
call time (after reaping it); in every other case it returns 1 —
counting updates of existing members exactly like new insertions. -/
theorem c7_zadd_amended (kv : kvjs) (now : Int) (key member : String)
    (score : Int) :
    ((kvjs.checkAndRemoveExpiredKey kv now key).2 = true →
      kvjs.zadd kv now key score member =
        ((kvjs.checkAndRemoveExpiredKey kv now key).1, 0)) ∧
    ((kvjs.checkAndRemoveExpiredKey kv now key).2 = false →
      (kvjs.zadd kv now key score member).2 = 1) := by
  constructor
  · intro h
    simp [kvjs.zadd, h]
  · intro h
    simp only [kvjs.zadd, h, Bool.false_eq_true, if_false]
    split <;> rfl

/-- C7 witness: the amended theorem at the concrete tie state. -/
theorem c7_witness :
    (kvjs.checkAndRemoveExpiredKey kvTies 0 "z").2 = false ∧
      (kvjs.zadd kvTies 0 "z" 7 "a").2 = 1 :=
  ⟨by decide, (c7_zadd_amended kvTies 0 "z" "a" 7).2 (by decide)⟩

/-! ## Claim C8 -/

/-- C8 (counterexample): on the three-key store the claim requires
`scan(0, "*", 3)` to return cursor 3; the code collapses the cursor to
0 because the page reaches the end of the key list
(`nextCursor = endIndex === keys.length ? 0 : endIndex`). -/
theorem c8_counterexample :
    (kvjs.scan kvScan3 0 0 "*" 3).1 = 0 ∧
    (kvjs.scan kvScan3 0 0 "*" 3).1 ≠ 3 := by
  decide

/-- C8 (amended): `scan(0, "*", 3)` on the three-key store returns
`(0, ["key1","key2","key3"])` — the full page with the cursor already
collapsed to 0 — and `scan(3, "*", 4)` returns `(0, [])`. -/
theorem c8_scan_scenario :
    kvjs.scan kvScan3 0 0 "*" 3 = (0, ["key1", "key2", "key3"]) ∧
    kvjs.scan kvScan3 0 3 "*" 4 = (0, []) := by
  decide

/-! ## Claim C9 -/

/-- C9: `XMap.set` semantics.  After `set(k, v)`, `get(k)` returns `v`
and `has(k)` holds; an existing key is updated in place in the shard
that holds it; a new key goes into the newest shard (`#pool[0]`) unless
that shard holds 8388608 entries, in which case a freshly allocated
shard receives it; an insertion is never dropped by a full shard; and
`size` is the sum of the shard sizes. -/
theorem c9_xmap_set_spec {κ ν : Type} [DecidableEq κ] (m : XMap κ ν)
    (k : κ) (v : ν) :
    (m.set k v).get k = some v ∧
    (m.set k v).has k = true ∧
    m.size = (m.pool.map List.length).sum ∧
    (m.has k = true →
      ∃ i, ∃ hi : i < m.pool.length,
        XMap.shardHas (m.pool.get ⟨i, hi⟩) k = true ∧
          (m.set k v).pool =
            m.pool.set i (XMap.shardSet (m.pool.get ⟨i, hi⟩) k v)) ∧
    (m.has k = false → m.first.length < XMap.SHARD_CAPACITY →
      m.set k v = ⟨m.first ++ [(k, v)], m.rest⟩) ∧
    (m.has k = false → m.first.length = XMap.SHARD_CAPACITY →
      m.set k v = ⟨[(k, v)], m.first :: m.rest⟩) := by
  refine ⟨XMap.get_set_self m k v, XMap.has_set_self m k v, rfl, ?_, ?_, ?_⟩
  · intro hhas
    by_cases h1 : XMap.shardHas m.first k
    · refine ⟨0, by simp [XMap.pool], h1, ?_⟩
      simp only [XMap.set, h1, if_true, XMap.pool]
      rfl
    · have h2 : m.rest.any (fun s => XMap.shardHas s k) = true := by
        simp only [XMap.has, XMap.pool, List.any_cons, h1, Bool.false_or] at hhas
        exact hhas
      obtain ⟨i, hi, hget, heq⟩ := XMap.setInPool_eq_set_of_has m.rest k v h2
      refine ⟨i + 1, by simpa [XMap.pool] using hi, by simpa [XMap.pool] using hget, ?_⟩
      simp only [XMap.set, h1, Bool.false_eq_true, if_false, h2, if_true, XMap.pool]
      simp [heq]
  · intro hhas hlen
    have h1 : XMap.shardHas m.first k = false := by
      simp only [XMap.has, XMap.pool, List.any_cons, Bool.or_eq_false_iff] at hhas
      exact hhas.1
    have h2 : m.rest.any (fun s => XMap.shardHas s k) = false := by
      simp only [XMap.has, XMap.pool, List.any_cons, Bool.or_eq_false_iff] at hhas
      exact hhas.2
    simp only [XMap.set, h1, h2, Bool.false_eq_true, if_false,
      Nat.not_le_of_lt hlen, XMap.shardSet_of_not_has m.first k v h1]
  · intro hhas hlen
    have h1 : XMap.shardHas m.first k = false := by
      simp only [XMap.has, XMap.pool, List.any_cons, Bool.or_eq_false_iff] at hhas
      exact hhas.1
    have h2 : m.rest.any (fun s => XMap.shardHas s k) = false := by
      simp only [XMap.has, XMap.pool, List.any_cons, Bool.or_eq_false_iff] at hhas
      exact hhas.2
    simp only [XMap.set, h1, h2, Bool.false_eq_true, if_false, hlen.ge, if_true]

/-- The big shard does not contain the key `0`. -/
theorem bigShard_not_has : XMap.shardHas bigShard 0 = false := by
  simp only [XMap.shardHas, List.any_eq_false, decide_eq_true_eq]
  intro p hp
  simp only [bigShard, List.mem_map, List.mem_range] at hp
  obtain ⟨i, hi, hip⟩ := hp
  subst hip
  simp

/-- The big shard holds exactly `SHARD_CAPACITY` entries. -/
theorem bigShard_length : bigShard.length = XMap.SHARD_CAPACITY := by
  simp only [bigShard, List.length_map, List.length_range]

/-- C9 witness: a shard at the 8388608-entry ceiling does not drop the
insertion — a fresh shard holding the new key is prepended to the pool,
and the new key is immediately retrievable. -/
theorem c9_witness :
    XMap.has bigM 0 = false ∧ bigM.first.length = XMap.SHARD_CAPACITY ∧
      XMap.set bigM 0 7 = ⟨[(0, 7)], bigM.first :: bigM.rest⟩ ∧
      (XMap.set bigM 0 7).get 0 = some 7 := by
  have hhas : XMap.has bigM 0 = false := by
    simp only [XMap.has, XMap.pool, bigM, List.any_cons, List.any_nil,
      Bool.or_false]
    exact bigShard_not_has
  have hlen : bigM.first.length = XMap.SHARD_CAPACITY := by
    simp only [bigM]
    exact bigShard_length
  exact ⟨hhas, hlen,
    (c9_xmap_set_spec bigM 0 7).2.2.2.2.2 hhas hlen,
    (c9_xmap_set_spec bigM 0 7).1⟩

/-! ## Claim C10 -/

/-- C10: a `set` expiration option whose value is 0 (`EX`, `PX`, `EXAT`
or `PXAT`) is treated exactly like an absent option: the key is stored
with no deadline, any prior deadline is removed, and a subsequent `get`
returns the stored value instead of the absence a past absolute
deadline would produce. -/
theorem c10_set_zero_expiry_option (kv : kvjs) (now now2 : Int)
    (key : String) (value : Value) (h : kv.expireTimes.WF) :
    ((kvjs.set kv now key value {EX := some 0}).1.expireTimes.get key = none ∧
      (kvjs.get (kvjs.set kv now key value {EX := some 0}).1 now2 key).2 =
        some value) ∧
    ((kvjs.set kv now key value {PX := some 0}).1.expireTimes.get key = none ∧
      (kvjs.get (kvjs.set kv now key value {PX := some 0}).1 now2 key).2 =
        some value) ∧
    ((kvjs.set kv now key value {EXAT := some 0}).1.expireTimes.get key = none ∧
      (kvjs.get (kvjs.set kv now key value {EXAT := some 0}).1 now2 key).2 =
        some value) ∧
    ((kvjs.set kv now key value {PXAT := some 0}).1.expireTimes.get key = none ∧
      (kvjs.get (kvjs.set kv now key value {PXAT := some 0}).1 now2 key).2 =
        some value) := by
  have hstate : ∀ o : kvjs.SetOptions,
      o = {EX := some 0} ∨ o = {PX := some 0} ∨ o = {EXAT := some 0} ∨
        o = {PXAT := some 0} →
      ((kvjs.set kv now key value o).1.expireTimes.get key = none ∧
        (kvjs.get (kvjs.set kv now key value o).1 now2 key).2 = some value) := by
    intro o ho
    rw [kvjs_set_zero_opt_state kv now key value o ho]
    have hnone : ((kv.expireTimes.delete key).1).get key = none :=
      XMap.get_delete_self kv.expireTimes key h
    refine ⟨hnone, ?_⟩
    rw [kvjs_get_of_no_deadline _ now2 key hnone]
    exact XMap.get_set_self kv.store key value
  exact ⟨hstate _ (Or.inl rfl), hstate _ (Or.inr (Or.inl rfl)),
    hstate _ (Or.inr (Or.inr (Or.inl rfl))),
    hstate _ (Or.inr (Or.inr (Or.inr rfl)))⟩

/-- C10 witness: at a concrete state where `"k"` already has a (past)
deadline, `set("k","v",{PXAT:0})` clears the deadline and `get`
returns the new value. -/
theorem c10_witness :
    kvPrior.expireTimes.WF ∧
      (kvjs.set kvPrior 100 "k" (.str "v") {PXAT := some 0}).1.expireTimes.get
        "k" = none ∧
      (kvjs.get (kvjs.set kvPrior 100 "k" (.str "v")
        {PXAT := some 0}).1 100 "k").2 = some (.str "v") :=
  ⟨by decide,
    (c10_set_zero_expiry_option kvPrior 100 100 "k" (.str "v") (by decide)).2.2.2⟩
